import Mathlib

/-!
Shallow embedding of the request-authentication and token-lifecycle core of
the `para-client-python` repository (files `paraclient/auth.py` and
`paraclient/paraclient.py`), together with theorems settling the frozen
claims about its specification.

Modelling conventions:
* Python exceptions are modelled with `Except`; an error value carries the
  client state as it stands at the moment the exception propagates, so
  partial mutations made before a raise are preserved.
* A Python instance attribute whose class declares a `None` default is
  modelled by `Attr`: `unset` means the instance attribute is absent (a
  read falls back to the class-level `None`, a `del` raises
  `AttributeError`), `val v` means the instance attribute holds `v`
  (itself an `Option`, since Python may store `None`).
* Strings manipulated character-by-character by the canonicalizer are
  modelled as `List Char`; Python `str.split(sep)` is `splitOnChar`.
* External collaborators (the HTTP transport, the AWS signature primitive,
  the base64/JSON decoding of a JWT payload) are parameters of the
  functions that call them, exactly at the call boundary the source uses.
-/

namespace ParaPy

/-- Python exception kinds relevant to the modelled code paths. -/
inductive PyError where
  | attributeError
  | typeError
  | indexError
  | keyError
  | decodeError
  deriving DecidableEq, Repr

/-- A Python instance attribute backed by a class-level `None` default:
`unset` = no instance attribute (class default visible), `val v` = the
instance attribute holds `v` (`none` models Python `None`). -/
inductive Attr (α : Type) where
  | unset
  | val (v : Option α)
  deriving DecidableEq, Repr

/-- Reading the attribute: an absent instance attribute falls back to the
class-level default `None`. -/
def Attr.read {α : Type} : Attr α → Option α
  | .unset => none
  | .val v => v

/-- Python truthiness of an optional string: `None` and `""` are falsy. -/
def truthyS : Option String → Bool
  | none => false
  | some s => decide (s ≠ "")

/-- Python truthiness of an optional integer: `None` and `0` are falsy. -/
def truthyI : Option Int → Bool
  | none => false
  | some n => decide (n ≠ 0)

/-- `headers[k] = v` on a Python dict modelled as an association list:
replace the first binding of `k`, else append. -/
def setHeader : List (String × String) → String → String → List (String × String)
  | [], k, v => [(k, v)]
  | (k', v') :: t, k, v =>
    if k' = k then (k, v) :: t else (k', v') :: setHeader t k v

/-- Dict lookup on a header list. -/
def getHeader : List (String × String) → String → Option String
  | [], _ => none
  | (k', v') :: t, k => if k' = k then some v' else getHeader t k

/-- `dst.update(src)` on header dicts: every binding of `src` is written
into `dst`. -/
def updateHeaders (dst src : List (String × String)) : List (String × String) :=
  src.foldl (fun acc kv => setHeader acc kv.1 kv.2) dst

/-! ### Character-level string utilities (Python `str` operations) -/

/-- Python `s.split(sep)` for a one-character separator: always returns at
least one (possibly empty) piece, empty pieces between adjacent
separators are kept. -/
def splitOnChar (sep : Char) : List Char → List (List Char)
  | [] => [[]]
  | c :: rest =>
    if c = sep then [] :: splitOnChar sep rest
    else
      match splitOnChar sep rest with
      | [] => [[c]]
      | p :: ps => (c :: p) :: ps

/-- Python `s.split("=", 1)` viewed as an option: `none` when no `'='`
occurs (so that indexing the second piece raises `IndexError`),
`some (k, v)` when `s = k ++ "=" ++ v` splitting at the first `'='`. -/
def splitEq : List Char → Option (List Char × List Char)
  | [] => none
  | c :: rest =>
    if c = '=' then some ([], rest)
    else
      match splitEq rest with
      | none => none
      | some (k, v) => some (c :: k, v)

/-- The characters `urllib.parse.quote_plus` leaves unchanged: ASCII
alphanumerics and `'_'`, `'.'`, `'-'`, `'~'`. -/
def safeChar (c : Char) : Bool :=
  c.isAlphanum || c = '_' || c = '.' || c = '-' || c = '~'

/-- Uppercase hexadecimal digit for `n < 16`. -/
def hexDigit (n : Nat) : Char :=
  if n < 10 then Char.ofNat (48 + n) else Char.ofNat (55 + n)

/-- UTF-8 encoding of a single character (what Python encodes before
percent-quoting non-ASCII characters). -/
def utf8Bytes (c : Char) : List Nat :=
  let n := c.toNat
  if n < 128 then [n]
  else if n < 2048 then [192 + n / 64, 128 + n % 64]
  else if n < 65536 then [224 + n / 4096, 128 + (n / 64) % 64, 128 + n % 64]
  else [240 + n / 262144, 128 + (n / 4096) % 64, 128 + (n / 64) % 64, 128 + n % 64]

/-- Percent-encoding of one byte: `%XX` with uppercase hex. -/
def pctByte (b : Nat) : List Char :=
  ['%', hexDigit (b / 16), hexDigit (b % 16)]

/-- `urllib.parse.quote_plus` on one character. -/
def quotePlusChar (c : Char) : List Char :=
  if safeChar c then [c]
  else if c = ' ' then ['+']
  else ((utf8Bytes c).map pctByte).flatten

/-- `urllib.parse.quote_plus`. -/
def quotePlus (v : List Char) : List Char :=
  (v.map quotePlusChar).flatten

/-- Python `s.replace("+", "%20")`. -/
def replacePlus (s : List Char) : List Char :=
  (s.map (fun c => if c = '+' then ['%', '2', '0'] else [c])).flatten

/-- The value re-encoding applied to each kept query value in
`AWSAuth.__call__`: `quote_plus(value).replace("+", "%20")`. -/
def encodedVal (v : List Char) : List Char :=
  replacePlus (quotePlus v)

/-! ### `paraclient/auth.py`: the canonical query-string builder -/

/-- The loop state of `AWSAuth.__call__` lines 30-47: the `query` dict of
kept key/value pairs (raw values), the `multi_valued_params` flag and the
accumulating `querystring`. -/
structure CanonState where
  query : List (List Char × List Char)
  multi : Bool
  querystring : List Char
  deriving DecidableEq, Repr

/-- Python `key in query` on the dict of kept pairs. -/
def containsKey (q : List (List Char × List Char)) (k : List Char) : Bool :=
  q.any (fun p => p.1 = k)

/-- First-match lookup in the kept-pairs dict. -/
def lookupQ : List (List Char × List Char) → List Char → Option (List Char)
  | [], _ => none
  | (k', v') :: t, k => if k' = k then some v' else lookupQ t k

/-- One iteration of the `for param in paramz` loop of `AWSAuth.__call__`:
empty params are skipped; a param with no `'='` raises `IndexError`
(`key_val[1]`); the first repetition of a key only sets the
`multi_valued_params` flag; a fresh nonempty key is appended to the dict
and to the canonical string with its value re-encoded. -/
def canonStep (st : CanonState) (param : List Char) : Except PyError CanonState :=
  if param = [] then .ok st
  else
    match splitEq param with
    | none => .error .indexError
    | some (k, v) =>
      if !st.multi && containsKey st.query k then
        .ok { st with multi := true }
      else if !k.isEmpty && !containsKey st.query k then
        .ok { query := st.query ++ [(k, v)],
              multi := st.multi,
              querystring :=
                st.querystring ++ (if st.querystring = [] then [] else ['&'])
                  ++ k ++ '=' :: encodedVal v }
      else .ok st

/-- The whole parameter loop. -/
def canonFold : CanonState → List (List Char) → Except PyError CanonState
  | st, [] => .ok st
  | st, p :: ps =>
    match canonStep st p with
    | .error e => .error e
    | .ok st' => canonFold st' ps

/-- Canonicalization of a raw query string: split on `'&'` and run the
loop from the empty state. -/
def canonQS (qs : List Char) : Except PyError CanonState :=
  canonFold ⟨[], false, []⟩ (splitOnChar '&' qs)

/-- `urlparse(url).query`: the part after the first `'?'`, up to a `'#'`
fragment marker. -/
def queryOf (url : List Char) : List Char :=
  match url.dropWhile (fun c => c ≠ '?') with
  | [] => []
  | _ :: rest => rest.takeWhile (fun c => c ≠ '#')

/-- `url.split("?")[0]`: the part before the first `'?'`. -/
def beforeQuery (url : List Char) : List Char :=
  url.takeWhile (fun c => c ≠ '?')

/-- The mutable request object seen by `AWSAuth.__call__`: its URL and its
header dict. -/
structure Req where
  url : List Char
  headers : List (String × String)
  deriving DecidableEq, Repr

/-- `AWSAuth.__call__` (auth.py lines 29-58). `innerSign` abstracts the
wrapped `aws_requests_auth` signer, as the signature headers it adds to a
request as a function of the URL it is invoked on. If any query key
collided, a deep copy of the request whose query is replaced by the
canonical string is signed and only the resulting headers are copied back
onto the original request, whose URL is left untouched; otherwise the
request's own URL first has every `'+'` rewritten to `"%20"` and is then
signed directly. -/
def awsAuthCall (innerSign : List Char → List (String × String)) (r : Req) :
    Except PyError Req :=
  match canonQS (queryOf r.url) with
  | .error e => .error e
  | .ok cs =>
    if cs.multi then
      let signedUrl := beforeQuery r.url ++ '?' :: cs.querystring
      .ok { url := r.url, headers := updateHeaders r.headers (innerSign signedUrl) }
    else
      let u := replacePlus r.url
      .ok { url := u, headers := updateHeaders r.headers (innerSign u) }

/-! ### `paraclient/paraclient.py`: client state, token lifecycle, dispatch -/

/-- The token-refresh endpoint path, `ParaClient.JWT_PATH`. -/
def JWT_PATH : String := "/jwt_auth"

/-- The mutable fields of a `ParaClient` relevant to authentication.
`accessKey`/`secretKey` are set in `__init__` and only read through Python
truthiness and string concatenation, so the empty string also models an
absent key.  The three token fields are class-level `None`-defaulted
attributes that the source deletes outright to clear, hence `Attr`. -/
structure ClientState where
  accessKey : String
  secretKey : String
  tokenKey : Attr String
  tokenKeyExpires : Attr Int
  tokenKeyNextRefresh : Attr Int
  deriving DecidableEq, Repr

/-- `ParaClient.clearAccessToken` (lines 133-139): three bare `del`
statements in order.  Deleting an instance attribute that was never set
raises `AttributeError`; earlier deletions stick (they are carried on the
error). -/
def clearAccessToken (st : ClientState) : Except (PyError × ClientState) ClientState :=
  match st.tokenKey with
  | .unset => .error (.attributeError, st)
  | .val _ =>
    let st1 := { st with tokenKey := .unset }
    match st1.tokenKeyExpires with
    | .unset => .error (.attributeError, st1)
    | .val _ =>
      let st2 := { st1 with tokenKeyExpires := .unset }
      match st2.tokenKeyNextRefresh with
      | .unset => .error (.attributeError, st2)
      | .val _ => .ok { st2 with tokenKeyNextRefresh := .unset }

/-- `ParaClient.signOut` (lines 1139-1144): delegates to
`clearAccessToken`. -/
def signOut (st : ClientState) : Except (PyError × ClientState) ClientState :=
  clearAccessToken st

/-- Dict lookup with `None` default, modelling `decoded.get(key)` on the
decoded JWT payload (values are JSON integers or null). -/
def dictGet (d : List (String × Option Int)) (k : String) : Option Int :=
  match d.find? (fun p => p.1 = k) with
  | some p => p.2
  | none => none

/-- `ParaClient.setAccessToken` (lines 117-131).  `decode` abstracts
`json.loads(base64.b64decode(seg + "==").decode("utf-8"))` on the payload
segment: `.error` when that raises, otherwise the decoded JSON object as
a field list (`[]` covering the falsy results `null`/`{}`).  A truthy
token is split on `'.'`; a missing second segment raises `IndexError`
before anything is stored; a payload with an `"exp"` claim populates the
expiry and next-refresh attributes; otherwise both attributes are
`del`eted (raising `AttributeError` when unset).  The raw token value is
stored last, even when the token argument is falsy. -/
def setAccessToken (decode : List Char → Except Unit (List (String × Option Int)))
    (st : ClientState) (token : Option String) : Except (PyError × ClientState) ClientState :=
  if truthyS token then
    let parts := splitOnChar '.' ((token.getD "").data)
    match parts.get? 1 with
    | none => .error (.indexError, st)
    | some seg =>
      match decode seg with
      | .error _ => .error (.decodeError, st)
      | .ok decoded =>
        if !decoded.isEmpty && decoded.any (fun p => p.1 = "exp") then
          .ok { st with
                tokenKeyExpires := .val (dictGet decoded "exp"),
                tokenKeyNextRefresh := .val (dictGet decoded "refresh"),
                tokenKey := .val token }
        else
          match st.tokenKeyExpires with
          | .unset => .error (.attributeError, st)
          | .val _ =>
            let st1 := { st with tokenKeyExpires := .unset }
            match st1.tokenKeyNextRefresh with
            | .unset => .error (.attributeError, st1)
            | .val _ =>
              .ok { st1 with tokenKeyNextRefresh := .unset, tokenKey := .val token }
  else .ok { st with tokenKey := .val token }

/-- Outcome of the refresh call `getEntity(invokeGet(JWT_PATH))` together
with the subsequent field accesses (paraclient.py lines 1157-1162), the
network being an external collaborator: `bad` = the entity is falsy or a
`user`/`jwt` field is present but falsy (the clearing path);
`missingField` = the entity is a dict without the accessed key, so the
subscript raises `KeyError`; `ok` = entity with `user` and a `jwt` dict
whose `access_token`, `expires` and `refresh` values are carried. -/
inductive RefreshNet where
  | bad
  | missingField
  | ok (tok : Option String) (expires nextRefresh : Option Int)
  deriving DecidableEq, Repr

/-- Line 1152: `notexpired = self.__tokenKeyExpires and self.__tokenKeyExpires > now`
as a boolean (a falsy expiry yields a falsy result). -/
def notexpired (st : ClientState) (now : Int) : Bool :=
  match st.tokenKeyExpires.read with
  | none => false
  | some e => decide (e ≠ 0) && decide (now < e)

/-- Lines 1153-1154: `canrefresh = self.__tokenKeyNextRefresh and
(self.__tokenKeyNextRefresh < now or self.__tokenKeyNextRefresh > self.__tokenKeyExpires)`.
A falsy next-refresh short-circuits; otherwise, when `nextRefresh < now`
fails, comparing the integer against a `None` expiry raises `TypeError`. -/
def canrefresh (st : ClientState) (now : Int) : Except PyError Bool :=
  match st.tokenKeyNextRefresh.read with
  | none => .ok false
  | some n =>
    if n = 0 then .ok false
    else if n < now then .ok true
    else
      match st.tokenKeyExpires.read with
      | none => .error .typeError
      | some e => .ok (decide (e < n))

/-- `ParaClient.refreshToken` (lines 1146-1166).  Returns
`((returnValue, networkCalled), newState)`: `returnValue` is the Python
return value, `networkCalled` records whether the `GET /jwt_auth` call was
made.  `notexpired` and `canrefresh` are computed eagerly as in the
source before the guard is tested.  When the guarded refresh call yields
a bad entity the token state is cleared via `clearAccessToken`. -/
def refreshToken (net : RefreshNet) (now : Int) (st : ClientState) :
    Except (PyError × ClientState) ((Bool × Bool) × ClientState) :=
  match canrefresh st now with
  | .error e => .error (e, st)
  | .ok cr =>
    if truthyS st.tokenKey.read && notexpired st now && cr then
      match net with
      | .ok tok e r =>
        .ok ((true, true),
             { st with tokenKey := .val tok, tokenKeyExpires := .val e,
                       tokenKeyNextRefresh := .val r })
      | .bad =>
        match clearAccessToken st with
        | .ok st' => .ok ((false, true), st')
        | .error es => .error es
      | .missingField => .error (.keyError, st)
    else .ok ((false, false), st)

/-- A request as handed to the HTTP transport by
`invokeSignedRequest`: method, full URL, headers, and whether it is
wrapped in the AWS signature auth (`do_sign`). -/
structure SentRequest where
  method : String
  url : String
  headers : List (String × String)
  signed : Bool
  deriving DecidableEq, Repr

/-- `ParaClient.invokeSignedRequest` (lines 242-277).  Returns
`(outcome, newState, refreshInvoked)` where `outcome` is `.ok none` for
the blank-access-key early return (only a log, no transport call),
`.ok (some req)` for a request handed to the transport, and `.error` for
a propagated exception; `refreshInvoked` records whether `refreshToken`
was called.  A blank access key returns `None` at once.  With no secret
key and no token an `Anonymous` header is attached and signing disabled.
With a truthy token, unless the call is `GET` on `JWT_PATH` itself,
`refreshToken` runs first; the `Bearer` header is then built from the
token attribute as it stands *after* that call, so a token cleared by a
failed refresh makes `"Bearer " + None` raise `TypeError`. -/
def invokeSignedRequest (net : RefreshNet) (now : Int) (st : ClientState)
    (httpMethod endpointURL reqPath : String) (headers : List (String × String)) :
    Except PyError (Option SentRequest) × ClientState × Bool :=
  if st.accessKey = "" then (.ok none, st, false)
  else
    let tok0 := st.tokenKey.read
    let anon := (st.secretKey = "") && !truthyS tok0
    let hs1 :=
      if anon then setHeader headers "Authorization" ("Anonymous " ++ st.accessKey)
      else headers
    let doSign := if anon then false else !truthyS tok0
    if truthyS tok0 then
      if httpMethod = "GET" ∧ reqPath = JWT_PATH then
        match st.tokenKey.read with
        | none => (.error .typeError, st, false)
        | some t1 =>
          (.ok (some ⟨httpMethod, endpointURL ++ reqPath,
                      setHeader hs1 "Authorization" ("Bearer " ++ t1), doSign⟩),
           st, false)
      else
        match refreshToken net now st with
        | .error (e, st') => (.error e, st', true)
        | .ok (_, st') =>
          match st'.tokenKey.read with
          | none => (.error .typeError, st', true)
          | some t1 =>
            (.ok (some ⟨httpMethod, endpointURL ++ reqPath,
                        setHeader hs1 "Authorization" ("Bearer " ++ t1), doSign⟩),
             st', true)
    else
      (.ok (some ⟨httpMethod, endpointURL ++ reqPath, hs1, doSign⟩), st, false)

/-! ### Concrete states and collaborators used in witnesses and counterexamples -/

/-- A client fresh out of `__init__`: credentials set, no token attribute
ever assigned. -/
def stFresh : ClientState :=
  ⟨"app1", "sec1", .unset, .unset, .unset⟩

/-- A client holding a bearer token that expires at 2000 ms with a
next-refresh timestamp of 500 ms. -/
def stTok : ClientState :=
  ⟨"app1", "sec1", .val (some "tok0"), .val (some 2000), .val (some 500)⟩

/-- A client with credentials whose access key is blank. -/
def stBlank : ClientState :=
  ⟨"", "sec1", .unset, .unset, .unset⟩

/-- A payload decoder that always fails, modelling a payload segment that
is not valid base64/JSON. -/
def decodeFail : List Char → Except Unit (List (String × Option Int)) :=
  fun _ => .error ()

/-- The refresh-due predicate exactly as claim C2 words it (the spec's
`isRefreshDue(now)`): a token is set, it is not expired
(`now < expiresAtEpochMs`), and `nextRefreshAtEpochMs` is set with either
`now >= nextRefreshAtEpochMs` or `nextRefreshAtEpochMs > expiresAtEpochMs`. -/
def specRefreshDue (st : ClientState) (now : Int) : Bool :=
  (st.tokenKey.read).isSome &&
  (match st.tokenKeyExpires.read with
   | some e => decide (now < e)
   | none => false) &&
  (match st.tokenKeyNextRefresh.read with
   | some n =>
     decide (n ≤ now) ||
       (match st.tokenKeyExpires.read with
        | some e => decide (e < n)
        | none => false)
   | none => false)

/-! ### Claim C1 -/

/-- C1 (code bug): with a bearer token set, expiry in the future and the
refresh timestamp past due, a dispatched call whose refresh returns a
failing response does clear the token state fully — but the originating
call does not proceed: the `Bearer` header is built from the token
attribute *after* the clear, so `"Bearer " + None` raises `TypeError` and
no request reaches the transport.  The claim's "the originating call
still proceeds using authorization headers computed before the clear" is
false on the code. -/
theorem c1_refresh_failure_crashes_call :
    invokeSignedRequest .bad 1000 stTok "POST" "http://x" "/v1/me" []
      = (.error .typeError, stFresh, true) := rfl

/-! ### Claim C2 -/

/-- C2 counterexample: at the exact instant `now = nextRefreshAtEpochMs`
(500 ms, expiry 2000 ms) the claim's predicate says a refresh is due, but
`refreshToken` makes no network call and returns `False` with the state
unchanged — the source compares `nextRefresh < now` strictly. -/
theorem c2_boundary_counterexample :
    refreshToken .bad 500 stTok = .ok ((false, false), stTok) ∧
      specRefreshDue stTok 500 = true :=
  ⟨rfl, rfl⟩

/-- If `refreshToken` returns normally, its `networkCalled` component is
exactly the source's guard `tokenKey and notexpired and canrefresh`. -/
theorem refreshToken_netCalled (net : RefreshNet) (now : Int) (st : ClientState)
    (b nc : Bool) (st' : ClientState)
    (h : refreshToken net now st = .ok ((b, nc), st')) :
    ∃ cr, canrefresh st now = .ok cr ∧
      nc = (truthyS st.tokenKey.read && notexpired st now && cr) := by
  unfold refreshToken at h
  split at h
  · simp at h
  · next cr heq =>
    refine ⟨cr, heq, ?_⟩
    split at h
    · next hcond =>
      rw [hcond]
      split at h
      · simp only [Except.ok.injEq, Prod.mk.injEq] at h
        exact h.1.2.symm
      · split at h
        · simp only [Except.ok.injEq, Prod.mk.injEq] at h
          exact h.1.2.symm
        · simp at h
      · simp at h
    · next hcond =>
      simp only [Except.ok.injEq, Prod.mk.injEq] at h
      rw [← h.1.2]
      simp only [Bool.not_eq_true] at hcond
      exact hcond.symm

/-- The `canrefresh` boolean, when it evaluates without a `TypeError`,
holds iff the next-refresh attribute is a nonzero integer that is either
strictly past (`n < now`) or beyond the expiry. -/
theorem canrefresh_iff (st : ClientState) (now : Int) (cr : Bool)
    (hC : canrefresh st now = .ok cr) :
    cr = true ↔
      ∃ n, st.tokenKeyNextRefresh.read = some n ∧ n ≠ 0 ∧
        (n < now ∨ ∃ e, st.tokenKeyExpires.read = some e ∧ e < n) := by
  unfold canrefresh at hC
  split at hC
  · next hN =>
    simp only [Except.ok.injEq] at hC
    simp [hN, ← hC]
  · next n hN =>
    split at hC
    · next hn0 =>
      simp only [Except.ok.injEq] at hC
      simp [hN, ← hC, hn0]
    · next hn0 =>
      split at hC
      · next hlt =>
        simp only [Except.ok.injEq] at hC
        simp [hN, ← hC, hn0, hlt]
      · next hlt =>
        split at hC
        · simp at hC
        · next e hE =>
          simp only [Except.ok.injEq] at hC
          simp [hN, hE, ← hC, hn0, hlt]

/-- The `notexpired` boolean holds iff the expiry attribute is a nonzero
integer strictly in the future. -/
theorem notexpired_iff (st : ClientState) (now : Int) :
    notexpired st now = true ↔
      ∃ e, st.tokenKeyExpires.read = some e ∧ e ≠ 0 ∧ now < e := by
  unfold notexpired
  cases hE : st.tokenKeyExpires.read <;> simp

/-- C2 amended: when `refreshToken` returns normally, the refresh network
call is made iff the token is truthy, the expiry attribute is a nonzero
value with `now < expires`, and the next-refresh attribute is a nonzero
value with either `nextRefresh < now` *strictly* or
`nextRefresh > expires`.  At the exact instant `now = nextRefresh` (with
`nextRefresh ≤ expires`) no refresh is attempted, contrary to the claim's
`now >= nextRefreshAtEpochMs`. -/
theorem c2_refresh_attempt_iff (net : RefreshNet) (now : Int) (st : ClientState)
    (b nc : Bool) (st' : ClientState)
    (h : refreshToken net now st = .ok ((b, nc), st')) :
    nc = true ↔
      (truthyS st.tokenKey.read = true ∧
        (∃ e, st.tokenKeyExpires.read = some e ∧ e ≠ 0 ∧ now < e) ∧
        (∃ n, st.tokenKeyNextRefresh.read = some n ∧ n ≠ 0 ∧
          (n < now ∨ ∃ e, st.tokenKeyExpires.read = some e ∧ e < n))) := by
  obtain ⟨cr, hC, hnc⟩ := refreshToken_netCalled net now st b nc st' h
  rw [hnc]
  simp only [Bool.and_eq_true]
  rw [notexpired_iff, canrefresh_iff st now cr hC]
  exact and_assoc

/-- `stTok` after a successful refresh that delivered token `"t2"`,
expiry 3000 and next refresh 2500. -/
def stTokRefreshed : ClientState :=
  ⟨"app1", "sec1", .val (some "t2"), .val (some 3000), .val (some 2500)⟩

/-- Witness for `c2_refresh_attempt_iff`: at `now = 1000` the token of
`stTok` is due (next refresh 500 strictly past) and the refresh call is
made. -/
theorem c2_refresh_attempt_iff_witness :
    (true = true ↔
      (truthyS stTok.tokenKey.read = true ∧
        (∃ e, stTok.tokenKeyExpires.read = some e ∧ e ≠ 0 ∧ (1000 : Int) < e) ∧
        (∃ n, stTok.tokenKeyNextRefresh.read = some n ∧ n ≠ 0 ∧
          (n < 1000 ∨ ∃ e, stTok.tokenKeyExpires.read = some e ∧ e < n)))) :=
  c2_refresh_attempt_iff (.ok (some "t2") (some 3000) (some 2500)) 1000 stTok
    true true stTokRefreshed rfl

/-! ### Claim C5 -/

/-- C5: with a blank access key, `invokeSignedRequest` fails locally — it
returns the configuration-error outcome (`None` after logging) with the
state untouched, no refresh attempted and nothing handed to the
transport, on every path including the anonymous and token-bearing ones. -/
theorem c5_blank_access_key_no_dispatch (net : RefreshNet) (now : Int)
    (st : ClientState) (m ep p : String) (hs : List (String × String))
    (h : st.accessKey = "") :
    invokeSignedRequest net now st m ep p hs = (.ok none, st, false) := by
  unfold invokeSignedRequest
  rw [if_pos h]

/-- Witness for `c5_blank_access_key_no_dispatch` on a token-bearing
state with an empty access key. -/
theorem c5_blank_access_key_no_dispatch_witness :
    invokeSignedRequest .bad 1000 ⟨"", "sec1", .val (some "tok0"), .val (some 2000), .val (some 500)⟩
        "POST" "http://x" "/v1/me" []
      = (.ok none, ⟨"", "sec1", .val (some "tok0"), .val (some 2000), .val (some 500)⟩, false) :=
  c5_blank_access_key_no_dispatch .bad 1000 _ "POST" "http://x" "/v1/me" [] rfl

/-! ### Claim C9 -/

/-- C9: whenever a truthy bearer token is held (and the access key is
nonblank so dispatch happens at all), `invokeSignedRequest` invokes
`refreshToken` before the call exactly when the call is not a `GET` of
the token-refresh path `JWT_PATH`. -/
theorem c9_refresh_gate (net : RefreshNet) (now : Int) (st : ClientState)
    (m ep p : String) (hs : List (String × String))
    (hak : ¬st.accessKey = "") (htok : truthyS st.tokenKey.read = true) :
    (invokeSignedRequest net now st m ep p hs).2.2 = true ↔
      ¬(m = "GET" ∧ p = JWT_PATH) := by
  unfold invokeSignedRequest
  rw [if_neg hak]
  simp only [htok, if_true]
  by_cases hmp : m = "GET" ∧ p = JWT_PATH
  · rw [if_pos hmp]
    rcases hread : st.tokenKey.read with _ | t <;> simp [hread, hmp]
  · rw [if_neg hmp]
    cases hr : refreshToken net now st with
    | error es =>
      obtain ⟨e, st2⟩ := es
      simp [hmp]
    | ok r =>
      obtain ⟨bb, st2⟩ := r
      rcases hread : st2.tokenKey.read with _ | t <;> simp [hread, hmp]

/-- Witness for `c9_refresh_gate`: a `POST /v1/me` with a token held does
trigger the refresh attempt. -/
theorem c9_refresh_gate_witness :
    ((invokeSignedRequest (.ok (some "t2") (some 3000) (some 2500)) 1000 stTok
        "POST" "http://x" "/v1/me" []).2.2 = true ↔
      ¬("POST" = "GET" ∧ "/v1/me" = JWT_PATH)) :=
  c9_refresh_gate (.ok (some "t2") (some 3000) (some 2500)) 1000 stTok
    "POST" "http://x" "/v1/me" [] (by decide) (by decide)

/-! ### Claim C10 -/

/-- C10 (code bug): `clearAccessToken` is three bare `del` statements, so
on a client that never held a token (or whose token was already cleared)
it raises `AttributeError` instead of terminating normally — clearing is
not idempotent and `signOut` is not safe without a prior sign-in.  With a
fully populated token state one clear does succeed and unsets all three
fields, after which a second clear raises. -/
theorem c10_clear_raises_without_token :
    clearAccessToken stFresh = .error (.attributeError, stFresh) ∧
      signOut stFresh = .error (.attributeError, stFresh) ∧
      clearAccessToken stTok = .ok stFresh ∧
      clearAccessToken stFresh = .error (.attributeError, stFresh) :=
  ⟨rfl, rfl, rfl, rfl⟩

/-! ### Claim C6 -/

/-- C6 counterexample: `setAccessToken` on a token whose payload segment
cannot be decoded does raise, contrary to the claim.  A token with no
second segment raises `IndexError` at `parts[1]`; a two-segment token
whose payload fails base64/JSON decoding propagates that error.  In both
cases nothing is stored (the raise happens before `__tokenKey` is
assigned). -/
theorem c6_undecodable_token_raises :
    setAccessToken decodeFail stFresh (some "garbage") = .error (.indexError, stFresh) ∧
      setAccessToken decodeFail stFresh (some "h.p") = .error (.decodeError, stFresh) :=
  ⟨rfl, rfl⟩

/-- C6 amended: for every truthy token string whose payload segment is
missing or fails to decode, `setAccessToken` raises and leaves the client
state completely unchanged; the raw value is *not* stored and no field is
touched. -/
theorem c6_undecodable_token_raises_general
    (decode : List Char → Except Unit (List (String × Option Int)))
    (st : ClientState) (t : String)
    (ht : truthyS (some t) = true)
    (hbad : ∀ seg, (splitOnChar '.' t.data).get? 1 = some seg → decode seg = .error ()) :
    ∃ e, setAccessToken decode st (some t) = .error (e, st) := by
  unfold setAccessToken
  rw [if_pos ht]
  cases hseg : (splitOnChar '.' t.data).get? 1 with
  | none => exact ⟨.indexError, by simp only [Option.getD_some, hseg]⟩
  | some seg =>
    have hd := hbad seg hseg
    exact ⟨.decodeError, by simp only [Option.getD_some, hseg, hd]⟩

/-- Witness for `c6_undecodable_token_raises_general` at the two-segment
token `"h.p"` with a failing payload decoder. -/
theorem c6_undecodable_token_raises_general_witness :
    ∃ e, setAccessToken decodeFail stFresh (some "h.p") = .error (e, stFresh) :=
  c6_undecodable_token_raises_general decodeFail stFresh "h.p" (by decide)
    (fun _ _ => rfl)

/-! ### Claim C3 -/

/-- Writing a header makes it readable back. -/
theorem getHeader_setHeader (hs : List (String × String)) (k v : String) :
    getHeader (setHeader hs k v) k = some v := by
  induction hs with
  | nil => simp [setHeader, getHeader]
  | cons kv t ih =>
    obtain ⟨k', v'⟩ := kv
    by_cases hk : k' = k
    · simp [setHeader, getHeader, hk]
    · simp only [setHeader, getHeader, if_neg hk]
      exact ih

/-- C3: a dispatched call that reaches the transport is in exactly one
authentication mode, determined by the state at entry: a truthy bearer
token yields an unsigned request carrying a `Bearer` header (even when a
secret key is also present); otherwise a nonempty secret key yields an
AWS-signed request with no `Authorization` header added; otherwise the
request is unsigned and carries `Authorization: Anonymous <accessKey>`.
The three guards partition the state space, so exactly one conclusion
applies to any sent request. -/
theorem c3_single_auth_mode (net : RefreshNet) (now : Int) (st : ClientState)
    (m ep p : String) (hs : List (String × String)) (req : SentRequest)
    (hnoauth : getHeader hs "Authorization" = none)
    (hres : (invokeSignedRequest net now st m ep p hs).1 = .ok (some req)) :
    (truthyS st.tokenKey.read = true →
      req.signed = false ∧
        ∃ t, getHeader req.headers "Authorization" = some ("Bearer " ++ t)) ∧
    (truthyS st.tokenKey.read = false → ¬st.secretKey = "" →
      req.signed = true ∧ getHeader req.headers "Authorization" = none) ∧
    (truthyS st.tokenKey.read = false → st.secretKey = "" →
      req.signed = false ∧
        getHeader req.headers "Authorization" = some ("Anonymous " ++ st.accessKey)) := by
  unfold invokeSignedRequest at hres
  by_cases hA : st.accessKey = ""
  · rw [if_pos hA] at hres
    simp at hres
  · rw [if_neg hA] at hres
    by_cases hT : truthyS st.tokenKey.read = true
    · simp only [hT, Bool.not_true, Bool.and_false, if_true] at hres
      refine ⟨fun _ => ?_,
        fun hF _ => absurd (hF ▸ hT) Bool.false_ne_true,
        fun hF _ => absurd (hF ▸ hT) Bool.false_ne_true⟩
      split at hres
      · split at hres
        · simp at hres
        · next t1 hread =>
          simp only [Except.ok.injEq, Option.some.injEq] at hres
          subst hres
          exact ⟨rfl, t1, getHeader_setHeader hs "Authorization" ("Bearer " ++ t1)⟩
      · split at hres
        · simp at hres
        · next r st2 =>
          split at hres
          · simp at hres
          · next t1 hread =>
            simp only [Except.ok.injEq, Option.some.injEq] at hres
            subst hres
            exact ⟨rfl, t1, getHeader_setHeader hs "Authorization" ("Bearer " ++ t1)⟩
    · have hT' : truthyS st.tokenKey.read = false := by
        revert hT; cases truthyS st.tokenKey.read <;> simp
      refine ⟨fun hTr => absurd (hT' ▸ hTr) (by simp), fun _ hS => ?_, fun _ hS => ?_⟩
      · simp only [hT', Bool.not_false, Bool.and_true, if_neg hS, decide_eq_true_eq,
          Bool.false_eq_true, if_false, Except.ok.injEq, Option.some.injEq] at hres
        subst hres
        exact ⟨rfl, hnoauth⟩
      · simp only [hS, hT', Bool.not_false, Bool.and_true, decide_eq_true_eq,
          eq_self_iff_true, if_true, Bool.false_eq_true, if_false,
          Except.ok.injEq, Option.some.injEq] at hres
        subst hres
        exact ⟨rfl, getHeader_setHeader hs "Authorization" ("Anonymous " ++ st.accessKey)⟩

/-- The request sent by the witness dispatch for `c3_single_auth_mode`. -/
def reqC3 : SentRequest :=
  ⟨"GET", "http://x/jwt_auth", [("Authorization", "Bearer tok0")], false⟩

/-- Witness for `c3_single_auth_mode`: `stTok` holds both a token and a
secret key, and its dispatched request is in bearer mode and unsigned. -/
theorem c3_single_auth_mode_witness :
    (truthyS stTok.tokenKey.read = true →
      reqC3.signed = false ∧
        ∃ t, getHeader reqC3.headers "Authorization" = some ("Bearer " ++ t)) ∧
    (truthyS stTok.tokenKey.read = false → ¬stTok.secretKey = "" →
      reqC3.signed = true ∧ getHeader reqC3.headers "Authorization" = none) ∧
    (truthyS stTok.tokenKey.read = false → stTok.secretKey = "" →
      reqC3.signed = false ∧
        getHeader reqC3.headers "Authorization" = some ("Anonymous " ++ stTok.accessKey)) :=
  c3_single_auth_mode .bad 1000 stTok "GET" "http://x" "/jwt_auth" [] reqC3 rfl rfl

/-! ### Claim C4 -/

/-- A request with a duplicate query key `a` and a literal `'+'` in a
value. -/
def reqC4 : Req :=
  ⟨"http://h/p?a=1+&b=2&a=3".data, []⟩

/-- A concrete stand-in for the wrapped AWS signer: it adds one signature
header. -/
def innerSignC4 : List Char → List (String × String) :=
  fun _ => [("Authorization", "AWS4-sig")]

/-- C4 counterexample: on a duplicate-key query the request is
transmitted with its original URL completely untouched — the
`'+'`-to-`"%20"` substitution the claim asserts is *not* applied (it only
happens on the no-collision branch). -/
theorem c4_dup_key_url_untouched :
    awsAuthCall innerSignC4 reqC4
        = .ok ⟨reqC4.url, [("Authorization", "AWS4-sig")]⟩ ∧
      replacePlus reqC4.url ≠ reqC4.url :=
  ⟨rfl, by decide⟩

/-- C4 amended: when a query key collides, the signature is computed over
the rebuilt URL `base ++ "?" ++ canonicalString` (duplicates dropped),
the resulting signature headers are copied onto the original request, and
the request keeps its original duplicate-bearing URL *unchanged* — no
`'+'` substitution; when no key collides, the URL sent is the original
with `'+'` rewritten to `"%20"` and is byte-for-byte the URL that was
signed. -/
theorem c4_signing_vs_sent_url (innerSign : List Char → List (String × String))
    (r : Req) (cs : CanonState) (hc : canonQS (queryOf r.url) = .ok cs) :
    (cs.multi = true →
      awsAuthCall innerSign r =
        .ok ⟨r.url,
             updateHeaders r.headers
               (innerSign (beforeQuery r.url ++ '?' :: cs.querystring))⟩) ∧
    (cs.multi = false →
      awsAuthCall innerSign r =
        .ok ⟨replacePlus r.url,
             updateHeaders r.headers (innerSign (replacePlus r.url))⟩) := by
  unfold awsAuthCall
  rw [hc]
  constructor <;> intro h <;> simp [h]

/-- The canonical state computed for `reqC4`'s query
`"a=1+&b=2&a=3"`: first occurrences kept, `multi` flagged, the value
`"1+"` re-encoded as `"1%2B"`. -/
def csC4 : CanonState :=
  ⟨[(['a'], ['1', '+']), (['b'], ['2'])], true, "a=1%2B&b=2".data⟩

/-- Witness for `c4_signing_vs_sent_url` on the duplicate-key request. -/
theorem c4_signing_vs_sent_url_witness :
    (csC4.multi = true →
      awsAuthCall innerSignC4 reqC4 =
        .ok ⟨reqC4.url,
             updateHeaders reqC4.headers
               (innerSignC4 (beforeQuery reqC4.url ++ '?' :: csC4.querystring))⟩) ∧
    (csC4.multi = false →
      awsAuthCall innerSignC4 reqC4 =
        .ok ⟨replacePlus reqC4.url,
             updateHeaders reqC4.headers (innerSignC4 (replacePlus reqC4.url))⟩) :=
  c4_signing_vs_sent_url innerSignC4 reqC4 csC4 rfl

/-! ### Splitting and joining lemmas for the canonicalizer -/

/-- The key part of a `key=value` pair: everything before the first `'='`. -/
def keyPart (p : List Char) : List Char :=
  p.takeWhile (fun c => c ≠ '=')

/-- The value part of a `key=value` pair: everything after the first `'='`. -/
def valuePart (p : List Char) : List Char :=
  (p.dropWhile (fun c => c ≠ '=')).tail

/-- Inverse of `splitOnChar`: re-join the pieces with the separator. -/
def joinSep (sep : Char) : List (List Char) → List Char
  | [] => []
  | [p] => p
  | p :: q :: ps => p ++ sep :: joinSep sep (q :: ps)

theorem splitOnChar_ne_nil (sep : Char) (l : List Char) : splitOnChar sep l ≠ [] := by
  cases l with
  | nil => simp [splitOnChar]
  | cons c rest =>
    unfold splitOnChar
    split
    · simp
    · split <;> simp

theorem joinSep_cons_cons (sep c : Char) (q : List Char) (ps : List (List Char)) :
    joinSep sep ((c :: q) :: ps) = c :: joinSep sep (q :: ps) := by
  cases ps <;> rfl

theorem splitOnChar_cons (sep c : Char) (rest : List Char) :
    splitOnChar sep (c :: rest) =
      if c = sep then [] :: splitOnChar sep rest
      else
        match splitOnChar sep rest with
        | [] => [[c]]
        | p :: ps => (c :: p) :: ps := rfl

theorem joinSep_splitOnChar (sep : Char) (l : List Char) :
    joinSep sep (splitOnChar sep l) = l := by
  induction l with
  | nil => rfl
  | cons c rest ih =>
    obtain ⟨q, ps, hqs⟩ : ∃ q ps, splitOnChar sep rest = q :: ps := by
      cases h : splitOnChar sep rest with
      | nil => exact absurd h (splitOnChar_ne_nil sep rest)
      | cons q ps => exact ⟨q, ps, rfl⟩
    rw [splitOnChar_cons]
    by_cases hc : c = sep
    · rw [if_pos hc, hqs,
        show joinSep sep ([] :: q :: ps) = sep :: joinSep sep (q :: ps) from rfl,
        ← hqs, ih, hc]
    · rw [if_neg hc]
      simp only [hqs]
      rw [joinSep_cons_cons, ← hqs, ih]

theorem keyPart_append (k v : List Char) (hk : '=' ∉ k) :
    keyPart (k ++ '=' :: v) = k := by
  induction k with
  | nil => simp [keyPart]
  | cons c k' ih =>
    have hc : c ≠ '=' := fun h => hk (h ▸ List.mem_cons_self c k')
    have hk' : '=' ∉ k' := fun h => hk (List.mem_cons_of_mem c h)
    simp only [keyPart, List.cons_append, List.takeWhile_cons]
    rw [if_pos (by simpa using hc)]
    simpa [keyPart] using ih hk'

theorem valuePart_append (k v : List Char) (hk : '=' ∉ k) :
    valuePart (k ++ '=' :: v) = v := by
  induction k with
  | nil => simp [valuePart]
  | cons c k' ih =>
    have hc : c ≠ '=' := fun h => hk (h ▸ List.mem_cons_self c k')
    have hk' : '=' ∉ k' := fun h => hk (List.mem_cons_of_mem c h)
    simp only [valuePart, List.cons_append, List.dropWhile_cons]
    rw [if_pos (by simpa using hc)]
    simpa [valuePart] using ih hk'

theorem splitEq_append (k v : List Char) (hk : '=' ∉ k) :
    splitEq (k ++ '=' :: v) = some (k, v) := by
  induction k with
  | nil => simp [splitEq]
  | cons c k' ih =>
    have hc : c ≠ '=' := fun h => hk (h ▸ List.mem_cons_self c k')
    have hk' : '=' ∉ k' := fun h => hk (List.mem_cons_of_mem c h)
    simp only [splitEq, List.cons_append, List.append_eq]
    rw [if_neg hc, ih hk']

theorem keyPart_valuePart_decomp (p : List Char) (h : '=' ∈ p) :
    keyPart p ++ '=' :: valuePart p = p := by
  induction p with
  | nil => simp at h
  | cons c rest ih =>
    by_cases hc : c = '='
    · subst hc
      simp [keyPart, valuePart]
    · have hr : '=' ∈ rest := by
        rcases List.mem_cons.mp h with h1 | h1
        · exact absurd h1.symm hc
        · exact h1
      simp only [keyPart, valuePart, List.takeWhile_cons, List.dropWhile_cons]
      rw [if_pos (by simpa using hc), if_pos (by simpa using hc)]
      simpa [keyPart, valuePart] using ih hr

theorem eq_not_mem_keyPart (p : List Char) : '=' ∉ keyPart p := by
  intro h
  have := List.mem_takeWhile_imp h
  simp at this

theorem splitEq_of_mem (p : List Char) (h : '=' ∈ p) :
    splitEq p = some (keyPart p, valuePart p) := by
  conv_lhs => rw [← keyPart_valuePart_decomp p h]
  exact splitEq_append _ _ (eq_not_mem_keyPart p)

theorem keyPart_ne_nil_imp (p : List Char) (h : keyPart p ≠ []) : p ≠ [] := by
  intro hp
  rw [hp] at h
  exact h rfl

/-! ### The re-encoding fixes strings of safe characters -/

theorem safeChar_ne_plus (c : Char) (h : safeChar c = true) : c ≠ '+' := by
  intro hc
  rw [hc] at h
  simp [safeChar] at h

theorem safeChar_ne_space (c : Char) (h : safeChar c = true) : c ≠ ' ' := by
  intro hc
  rw [hc] at h
  simp [safeChar] at h

theorem quotePlusChar_safe (c : Char) (h : safeChar c = true) :
    quotePlusChar c = [c] := by
  unfold quotePlusChar
  rw [if_pos h]

theorem replacePlus_cons (c : Char) (s : List Char) :
    replacePlus (c :: s) =
      (if c = '+' then ['%', '2', '0'] else [c]) ++ replacePlus s := by
  simp [replacePlus]

theorem encodedVal_safe (v : List Char) (h : ∀ c ∈ v, safeChar c = true) :
    encodedVal v = v := by
  induction v with
  | nil => rfl
  | cons c v' ih =>
    have hc := h c (List.mem_cons_self c v')
    have hv' : ∀ c ∈ v', safeChar c = true := fun x hx => h x (List.mem_cons_of_mem c hx)
    unfold encodedVal at ih ⊢
    rw [show quotePlus (c :: v') = quotePlusChar c ++ quotePlus v' by simp [quotePlus],
      quotePlusChar_safe c hc]
    rw [show ([c] ++ quotePlus v' : List Char) = c :: quotePlus v' from rfl,
      replacePlus_cons, if_neg (safeChar_ne_plus c hc), ih hv']
    rfl

/-! ### Dict lemmas for the kept-pairs association list -/

/-- Plain first-some choice on options (Python's `or`-like fallback used
to state the fold invariant). -/
def orO (a b : Option (List Char)) : Option (List Char) :=
  match a with
  | some x => some x
  | none => b

theorem orO_none_left (b : Option (List Char)) : orO none b = b := rfl

theorem orO_none_right (a : Option (List Char)) : orO a none = a := by
  cases a <;> rfl

theorem orO_assoc (a b c : Option (List Char)) :
    orO (orO a b) c = orO a (orO b c) := by
  cases a <;> cases b <;> rfl

theorem orO_isSome_left (a b : Option (List Char)) (h : a.isSome = true) :
    orO a b = a := by
  cases a with
  | none => simp at h
  | some x => rfl

theorem containsKey_eq_isSome_lookupQ (q : List (List Char × List Char)) (k : List Char) :
    containsKey q k = (lookupQ q k).isSome := by
  induction q with
  | nil => rfl
  | cons kv t ih =>
    obtain ⟨k', v'⟩ := kv
    by_cases hk : k' = k
    · simp [containsKey, lookupQ, hk]
    · simp only [containsKey, lookupQ, List.any_cons, if_neg hk]
      simpa [containsKey, hk] using ih

theorem lookupQ_append (q₁ q₂ : List (List Char × List Char)) (k : List Char) :
    lookupQ (q₁ ++ q₂) k = orO (lookupQ q₁ k) (lookupQ q₂ k) := by
  induction q₁ with
  | nil => rfl
  | cons kv t ih =>
    obtain ⟨k', v'⟩ := kv
    by_cases hk : k' = k
    · simp [lookupQ, hk, orO]
    · simp only [List.cons_append, lookupQ, if_neg hk]
      exact ih

theorem lookupQ_single (k₀ v₀ k : List Char) :
    lookupQ [(k₀, v₀)] k = if k₀ = k then some v₀ else none := by
  by_cases hk : k₀ = k <;> simp [lookupQ, hk]

theorem lookupQ_eq_none_of_not_contains (q : List (List Char × List Char))
    (k : List Char) (h : containsKey q k = false) : lookupQ q k = none := by
  rw [containsKey_eq_isSome_lookupQ] at h
  cases hl : lookupQ q k with
  | none => rfl
  | some v => rw [hl] at h; simp at h

theorem mem_map_fst_of_contains (q : List (List Char × List Char)) (k : List Char) :
    containsKey q k = true ↔ k ∈ q.map Prod.fst := by
  induction q with
  | nil => simp [containsKey]
  | cons kv t ih =>
    obtain ⟨k', v'⟩ := kv
    by_cases hk : k' = k
    · simp [containsKey, hk]
    · simp only [containsKey, List.any_cons, List.map_cons, List.mem_cons]
      constructor
      · intro h
        rcases Bool.or_eq_true_iff.mp h with h1 | h1
        · exact absurd (by simpa using h1) hk
        · exact Or.inr (ih.mp h1)
      · rintro (h1 | h1)
        · exact absurd h1.symm hk
        · exact Bool.or_eq_true_iff.mpr (Or.inr (ih.mpr h1))

theorem lookupQ_of_mem_nodup (q : List (List Char × List Char))
    (k v : List Char) (hnd : (q.map Prod.fst).Nodup) (hmem : (k, v) ∈ q) :
    lookupQ q k = some v := by
  induction q with
  | nil => simp at hmem
  | cons kv t ih =>
    obtain ⟨k', v'⟩ := kv
    rcases List.mem_cons.mp hmem with h1 | h1
    · rw [← h1]
      simp [lookupQ]
    · have hk : k' ≠ k := by
        intro hk
        subst hk
        have : k' ∈ t.map Prod.fst := List.mem_map.mpr ⟨(k', v), h1, rfl⟩
        exact (List.nodup_cons.mp (by simpa using hnd)).1 this
      simp only [lookupQ, if_neg hk]
      exact ih (List.nodup_cons.mp (by simpa using hnd)).2 h1

theorem containsKey_append (q₁ q₂ : List (List Char × List Char)) (k : List Char) :
    containsKey (q₁ ++ q₂) k = (containsKey q₁ k || containsKey q₂ k) := by
  simp [containsKey, List.any_append]

/-! ### The canonicalizer fixes well-formed safe query strings (claim C7) -/

/-- The querystring accumulation of one kept parameter: separator `'&'`
when the accumulator is nonempty, then `key=value`. -/
def appendParam (acc p : List Char) : List Char :=
  acc ++ (if acc = [] then [] else ['&']) ++ p

theorem canonStep_add (st : CanonState) (p k v : List Char)
    (hp : p ≠ []) (hsp : splitEq p = some (k, v))
    (hk : k ≠ []) (hct : containsKey st.query k = false) :
    canonStep st p =
      .ok ⟨st.query ++ [(k, v)], st.multi,
           st.querystring ++ (if st.querystring = [] then [] else ['&'])
             ++ k ++ '=' :: encodedVal v⟩ := by
  have hke : k.isEmpty = false := by
    cases k with
    | nil => exact absurd rfl hk
    | cons a b => rfl
  unfold canonStep
  rw [if_neg hp]
  simp only [hsp]
  rw [if_neg (by simp [hct] : ¬(!st.multi && containsKey st.query k) = true),
    if_pos (by simp [hct, hke] : (!k.isEmpty && !containsKey st.query k) = true)]

theorem canonFold_safe (ps : List (List Char)) (st : CanonState)
    (hshape : ∀ p ∈ ps, '=' ∈ p ∧ keyPart p ≠ [] ∧ (valuePart p).all safeChar = true)
    (hnodup : (ps.map keyPart).Nodup)
    (hfresh : ∀ p ∈ ps, containsKey st.query (keyPart p) = false) :
    ∃ q', canonFold st ps =
        .ok ⟨st.query ++ q', st.multi, ps.foldl appendParam st.querystring⟩ ∧
      q'.map Prod.fst = ps.map keyPart := by
  induction ps generalizing st with
  | nil => exact ⟨[], by simp [canonFold], rfl⟩
  | cons p ps ih =>
    obtain ⟨hmem, hkne, hsafe⟩ := hshape p (List.mem_cons_self p ps)
    have hsp : splitEq p = some (keyPart p, valuePart p) := splitEq_of_mem p hmem
    have hpne : p ≠ [] := keyPart_ne_nil_imp p hkne
    have hct : containsKey st.query (keyPart p) = false := hfresh p (List.mem_cons_self p ps)
    have henc : encodedVal (valuePart p) = valuePart p :=
      encodedVal_safe _ (fun c hc => by
        have := List.all_eq_true.mp hsafe c hc
        simpa using this)
    have hstep := canonStep_add st p (keyPart p) (valuePart p) hpne hsp hkne hct
    have hqs_eq :
        st.querystring ++ (if st.querystring = [] then [] else ['&'])
            ++ keyPart p ++ '=' :: encodedVal (valuePart p)
          = appendParam st.querystring p := by
      rw [henc, appendParam]
      conv_rhs => rw [← keyPart_valuePart_decomp p hmem]
      simp [List.append_assoc]
    have hnodup' : (keyPart p :: ps.map keyPart).Nodup := by
      rw [List.map_cons] at hnodup
      exact hnodup
    have hhead : keyPart p ∉ ps.map keyPart := (List.nodup_cons.mp hnodup').1
    have htail : (ps.map keyPart).Nodup := (List.nodup_cons.mp hnodup').2
    obtain ⟨q'', hfold, hmap⟩ :=
      ih ⟨st.query ++ [(keyPart p, valuePart p)], st.multi, appendParam st.querystring p⟩
        (fun p' hp' => hshape p' (List.mem_cons_of_mem p hp'))
        htail
        (fun p' hp' => by
          have h1 : containsKey st.query (keyPart p') = false :=
            hfresh p' (List.mem_cons_of_mem p hp')
          have h2 : keyPart p ≠ keyPart p' := by
            intro hkk
            exact hhead (hkk ▸ List.mem_map.mpr ⟨p', hp', rfl⟩)
          show containsKey (st.query ++ [(keyPart p, valuePart p)]) (keyPart p') = false
          rw [containsKey_append, h1]
          simp [containsKey, h2])
    refine ⟨(keyPart p, valuePart p) :: q'', ?_, by simp [hmap]⟩
    simp only [canonFold, hstep, hqs_eq, List.foldl_cons]
    rw [hfold]
    simp

theorem foldl_appendParam_ne (ps : List (List Char)) (acc : List Char) (hacc : acc ≠ []) :
    ps.foldl appendParam acc = acc ++ (ps.map (fun p => '&' :: p)).flatten := by
  induction ps generalizing acc with
  | nil => simp
  | cons p ps ih =>
    rw [List.foldl_cons]
    have h1 : appendParam acc p = acc ++ '&' :: p := by
      rw [appendParam, if_neg hacc]
      simp
    have h2 : appendParam acc p ≠ [] := by
      rw [h1]
      simp [hacc]
    rw [ih _ h2, h1]
    simp

theorem joinSep_eq_flatten (sep : Char) (p : List Char) (ps : List (List Char)) :
    joinSep sep (p :: ps) = p ++ (ps.map (fun q => sep :: q)).flatten := by
  induction ps generalizing p with
  | nil => simp [joinSep]
  | cons q ps ih =>
    rw [show joinSep sep (p :: q :: ps) = p ++ sep :: joinSep sep (q :: ps) from rfl, ih]
    simp

theorem foldl_appendParam_eq_joinSep (ps : List (List Char))
    (hne : ∀ p ∈ ps, p ≠ []) (hpsne : ps ≠ []) :
    ps.foldl appendParam [] = joinSep '&' ps := by
  cases ps with
  | nil => exact absurd rfl hpsne
  | cons p ps =>
    rw [List.foldl_cons, show appendParam [] p = p from by simp [appendParam]]
    cases ps with
    | nil => rfl
    | cons q ps' =>
      rw [foldl_appendParam_ne _ p (hne p (List.mem_cons_self p _)), joinSep_eq_flatten]

/-- C7 amended: on query strings with no duplicate keys whose every
`'&'`-separated pair is a nonempty `key=value` with a value made only of
characters the re-encoding leaves unchanged, canonicalization returns the
input string itself — hence applying it twice yields the same string as
once.  (The unrestricted claim fails: re-encoding is not idempotent on
values containing characters such as `'+'`.) -/
theorem c7_canon_idempotent_on_safe (qs : List Char)
    (hshape : ∀ p ∈ splitOnChar '&' qs,
      '=' ∈ p ∧ keyPart p ≠ [] ∧ (valuePart p).all safeChar = true)
    (hnodup : ((splitOnChar '&' qs).map keyPart).Nodup) :
    ∃ st₁, canonQS qs = .ok st₁ ∧ st₁.querystring = qs ∧
      canonQS st₁.querystring = canonQS qs := by
  obtain ⟨q', hfold, hmap⟩ :=
    canonFold_safe (splitOnChar '&' qs) ⟨[], false, []⟩ hshape hnodup (fun p _ => rfl)
  have hqs : (splitOnChar '&' qs).foldl appendParam [] = qs := by
    rw [foldl_appendParam_eq_joinSep _
      (fun p hp => keyPart_ne_nil_imp p (hshape p hp).2.1)
      (splitOnChar_ne_nil '&' qs)]
    exact joinSep_splitOnChar '&' qs
  refine ⟨⟨q', false, qs⟩, ?_, rfl, ?_⟩
  · rw [show canonQS qs = canonFold ⟨[], false, []⟩ (splitOnChar '&' qs) from rfl, hfold]
    simp [hqs]
  · rfl

/-- C7 counterexample: on the duplicate-free query `"a=b+c"` the
canonicalizer is not idempotent — one pass yields `"a=b%2Bc"`, a second
pass yields `"a=b%252Bc"`. -/
theorem c7_not_idempotent_counterexample :
    canonQS "a=b+c".data = .ok ⟨[(['a'], "b+c".data)], false, "a=b%2Bc".data⟩ ∧
      canonQS "a=b%2Bc".data
        = .ok ⟨[(['a'], "b%2Bc".data)], false, "a=b%252Bc".data⟩ ∧
      "a=b%252Bc".data ≠ "a=b%2Bc".data :=
  ⟨rfl, rfl, by decide⟩

/-- Witness for `c7_canon_idempotent_on_safe` on `"a=1&b=2"`. -/
theorem c7_canon_idempotent_on_safe_witness :
    ∃ st₁, canonQS "a=1&b=2".data = .ok st₁ ∧ st₁.querystring = "a=1&b=2".data ∧
      canonQS st₁.querystring = canonQS "a=1&b=2".data :=
  c7_canon_idempotent_on_safe "a=1&b=2".data (by decide) (by decide)

/-! ### First-occurrence-wins (claim C8) -/

/-- The value of the first `'&'`-separated pair of the parameter list
whose (nonempty) key is `k`. -/
def firstVal : List (List Char) → List Char → Option (List Char)
  | [], _ => none
  | p :: ps, k =>
    match splitEq p with
    | some kv => if kv.1 = k ∧ kv.1 ≠ [] then some kv.2 else firstVal ps k
    | none => firstVal ps k

/-- Invariant of the parameter loop: under well-formedness (every
nonempty parameter contains `'='`) the fold succeeds, the kept-pairs dict
maps each key to its previous binding or, failing that, to the first
value the parameter list supplies for it, and distinctness of the kept
keys is preserved. -/
theorem canonFold_lookup (ps : List (List Char)) (st : CanonState)
    (hwf : ∀ p ∈ ps, p ≠ [] → '=' ∈ p) :
    ∃ st', canonFold st ps = .ok st' ∧
      (∀ k, lookupQ st'.query k = orO (lookupQ st.query k) (firstVal ps k)) ∧
      ((st.query.map Prod.fst).Nodup → (st'.query.map Prod.fst).Nodup) := by
  induction ps generalizing st with
  | nil =>
    exact ⟨st, by simp [canonFold], fun k => (orO_none_right _).symm, id⟩
  | cons p ps ih =>
    have hwf' : ∀ q ∈ ps, q ≠ [] → '=' ∈ q :=
      fun q hq => hwf q (List.mem_cons_of_mem p hq)
    by_cases hp : p = []
    · subst hp
      have hstep : canonStep st [] = .ok st := by unfold canonStep; rw [if_pos rfl]
      obtain ⟨st', hfold, hlook, hnd⟩ := ih st hwf'
      exact ⟨st', by simp only [canonFold, hstep]; exact hfold, fun k => hlook k, hnd⟩
    · have hmem := hwf p (List.mem_cons_self p ps) hp
      have hsp : splitEq p = some (keyPart p, valuePart p) := splitEq_of_mem p hmem
      have hfv : ∀ k, firstVal (p :: ps) k =
          if keyPart p = k ∧ keyPart p ≠ [] then some (valuePart p)
          else firstVal ps k := by
        intro k
        simp only [firstVal, hsp]
      by_cases hc1 : (!st.multi && containsKey st.query (keyPart p)) = true
      · have hstep : canonStep st p = .ok { st with multi := true } := by
          unfold canonStep
          rw [if_neg hp]
          simp only [hsp]
          rw [if_pos hc1]
        obtain ⟨st', hfold, hlook, hnd⟩ := ih { st with multi := true } hwf'
        refine ⟨st', by simp only [canonFold, hstep]; exact hfold, ?_, hnd⟩
        intro k
        rw [hlook k, hfv k]
        by_cases hk : keyPart p = k ∧ keyPart p ≠ []
        · rw [if_pos hk]
          have hsome : (lookupQ st.query k).isSome = true := by
            rw [← containsKey_eq_isSome_lookupQ, ← hk.1]
            have h := hc1
            rw [Bool.and_eq_true] at h
            exact h.2
          rw [show ({ st with multi := true } : CanonState).query = st.query from rfl,
            orO_isSome_left _ _ hsome, orO_isSome_left _ _ hsome]
        · rw [if_neg hk]
      · by_cases hc2 : (!(keyPart p).isEmpty && !containsKey st.query (keyPart p)) = true
        · have hk0ne : keyPart p ≠ [] := by
            intro h0
            rw [h0] at hc2
            simp at hc2
          have hctf : containsKey st.query (keyPart p) = false := by
            have h2c := hc2
            rw [Bool.and_eq_true] at h2c
            have h := h2c.2
            cases h' : containsKey st.query (keyPart p) with
            | true => rw [h'] at h; simp at h
            | false => rfl
          have hstep := canonStep_add st p (keyPart p) (valuePart p) hp hsp hk0ne hctf
          obtain ⟨st', hfold, hlook, hnd⟩ :=
            ih ⟨st.query ++ [(keyPart p, valuePart p)], st.multi,
                st.querystring ++ (if st.querystring = [] then [] else ['&'])
                  ++ keyPart p ++ '=' :: encodedVal (valuePart p)⟩ hwf'
          refine ⟨st', by simp only [canonFold, hstep]; exact hfold, ?_, ?_⟩
          · intro k
            rw [hlook k]
            rw [show (⟨st.query ++ [(keyPart p, valuePart p)], st.multi,
                st.querystring ++ (if st.querystring = [] then [] else ['&'])
                  ++ keyPart p ++ '=' :: encodedVal (valuePart p)⟩ : CanonState).query
              = st.query ++ [(keyPart p, valuePart p)] from rfl]
            rw [lookupQ_append, lookupQ_single, hfv k]
            by_cases hkk : keyPart p = k
            · rw [if_pos hkk, if_pos ⟨hkk, hk0ne⟩,
                lookupQ_eq_none_of_not_contains _ _ (hkk ▸ hctf)]
              simp [orO]
            · rw [if_neg hkk, if_neg (fun hcon => hkk hcon.1), orO_none_right]
          · intro hndq
            apply hnd
            have hk0nm : keyPart p ∉ st.query.map Prod.fst := by
              intro hm
              rw [← mem_map_fst_of_contains] at hm
              rw [hctf] at hm
              exact Bool.false_ne_true hm
            simp [List.nodup_append, hndq, hk0nm]
        · have hstep : canonStep st p = .ok st := by
            unfold canonStep
            rw [if_neg hp]
            simp only [hsp]
            rw [if_neg hc1, if_neg hc2]
          obtain ⟨st', hfold, hlook, hnd⟩ := ih st hwf'
          refine ⟨st', by simp only [canonFold, hstep]; exact hfold, ?_, hnd⟩
          intro k
          rw [hlook k, hfv k]
          by_cases hk : keyPart p = k ∧ keyPart p ≠ []
          · rw [if_pos hk]
            have hkE : (keyPart p).isEmpty = false := by
              cases h : keyPart p with
              | nil => exact absurd h hk.2
              | cons a b => rfl
            have hcont : containsKey st.query (keyPart p) = true := by
              cases h : containsKey st.query (keyPart p) with
              | true => rfl
              | false =>
                exact absurd (by simp [hkE, h] :
                  (!(keyPart p).isEmpty && !containsKey st.query (keyPart p)) = true) hc2
            have hsome : (lookupQ st.query k).isSome = true := by
              rw [← containsKey_eq_isSome_lookupQ, ← hk.1]
              exact hcont
            rw [orO_isSome_left _ _ hsome, orO_isSome_left _ _ hsome]
          · rw [if_neg hk]

/-- C8: in a well-formed query string (every nonempty `'&'`-piece has an
`'='`) where key `k` first appears with value `v1` and appears again with
a different value `v2`, canonicalization raises no error, its kept-pairs
dict maps `k` to `v1`, and the pair `(k, v2)` is not among the kept
pairs — first occurrence wins and the later value is dropped. -/
theorem c8_first_occurrence_wins (qs k v1 v2 : List Char)
    (hwf : ∀ p ∈ splitOnChar '&' qs, p ≠ [] → '=' ∈ p)
    (h1 : firstVal (splitOnChar '&' qs) k = some v1)
    (h2 : ∃ p, p ∈ splitOnChar '&' qs ∧ splitEq p = some (k, v2))
    (hne : v1 ≠ v2) :
    ∃ st', canonQS qs = .ok st' ∧ lookupQ st'.query k = some v1 ∧
      (k, v2) ∉ st'.query := by
  obtain ⟨st', hfold, hlook, hnd⟩ :=
    canonFold_lookup (splitOnChar '&' qs) ⟨[], false, []⟩ hwf
  have hl : lookupQ st'.query k = some v1 := by
    rw [hlook k]
    rw [show lookupQ (⟨[], false, []⟩ : CanonState).query k = none from rfl,
      orO_none_left, h1]
  refine ⟨st', hfold, hl, ?_⟩
  intro hmem
  have hv2 := lookupQ_of_mem_nodup st'.query k v2 (hnd (by simp)) hmem
  rw [hl] at hv2
  exact hne (Option.some.inj hv2)

/-- Witness for `c8_first_occurrence_wins` on the spec's own scenario
`"a=1&b=2&a=3"`. -/
theorem c8_first_occurrence_wins_witness :
    ∃ st', canonQS "a=1&b=2&a=3".data = .ok st' ∧
      lookupQ st'.query ['a'] = some ['1'] ∧ (['a'], ['3']) ∉ st'.query :=
  c8_first_occurrence_wins "a=1&b=2&a=3".data ['a'] ['1'] ['3'] (by decide)
    (by decide) ⟨"a=3".data, by decide, rfl⟩ (by decide)

end ParaPy
